import Mathlib

/-!
Verification of the EasyWorkspace sublime-text plugin (`easy-workspace.py`).

The development shallowly embeds the plugin's data model and operations:

* Python runtime values (`PyVal`) with `None`, booleans, numbers, strings,
  lists, tuples and (insertion-ordered) dicts, together with Python
  truthiness.
* JSON documents (`JVal`) and the host functions `sublime.encode_value` /
  `sublime.decode_value`.  Encoding writes Python tuples as JSON arrays, so
  decoding returns lists where tuples were saved; this is captured by the
  `pyNormalize` function and the `decode_encode` lemma.
* The `EasyWorkspace` value object with `saveToFile`, `loadFromFile`,
  `buildFromWindow`, `buildFromJSON` and the focus phase of `applyToWindow`.
* The command layer: the shared `_openWorkspaceFiles` map with its garbage
  collection, `getWorkspacesDir` / `getWorkspaceFilepath` path resolution
  (with `os.path.splitext` and posix `os.path.join`), the save and open
  command runs, and the `AutoSaveEasyWorkspace.on_window_command` listener.

The file system, windows, views, settings and dialogs are host objects; they
are modelled as explicit data (an association list of path/document pairs, a
`Window` structure, a settings lookup function, a dialog answer parameter).
Python exceptions (`KeyError`, `ValueError`, `TypeError`) are modelled by
`Option`: a `none` result marks an uncaught exception.
-/

namespace EasyWS

/-! ### Python values -/

mutual
/-- A Python runtime value as used by the plugin: `None`, booleans, numbers,
strings, lists, tuples, and insertion-ordered dicts with string keys. -/
inductive PyVal where
  | none
  | bool (b : Bool)
  | num (q : Rat)
  | str (s : String)
  | list (xs : PyList)
  | tuple (xs : PyList)
  | dict (kvs : PyDict)
deriving DecidableEq
/-- Spine of a Python list/tuple of `PyVal`s. -/
inductive PyList where
  | nil
  | cons (hd : PyVal) (tl : PyList)
deriving DecidableEq
/-- Spine of a Python dict with string keys, in insertion order. -/
inductive PyDict where
  | nil
  | cons (key : String) (val : PyVal) (tl : PyDict)
deriving DecidableEq
end

def PyList.isEmpty : PyList → Bool
  | .nil => true
  | .cons _ _ => false

def PyDict.isEmpty : PyDict → Bool
  | .nil => true
  | .cons _ _ _ => false

/-- Python truthiness: `None`, `False`, `0`, `""` and empty containers are
falsy, everything else is truthy. -/
def PyVal.truthy : PyVal → Bool
  | .none => false
  | .bool b => b
  | .num q => q != 0
  | .str s => s != ""
  | .list xs => !xs.isEmpty
  | .tuple xs => !xs.isEmpty
  | .dict kvs => !kvs.isEmpty

def PyList.ofList : List PyVal → PyList
  | [] => .nil
  | x :: xs => .cons x (PyList.ofList xs)

def PyList.toList : PyList → List PyVal
  | .nil => []
  | .cons x xs => x :: PyList.toList xs

def PyList.append : PyList → PyList → PyList
  | .nil, ys => ys
  | .cons x xs, ys => .cons x (PyList.append xs ys)

/-- Python dict item lookup (`d[k]`); keys are unique in every dict this
plugin builds, so first-match lookup is dict lookup. -/
def PyDict.lookup : PyDict → String → Option PyVal
  | .nil, _ => Option.none
  | .cons k v rest, key => if k = key then some v else PyDict.lookup rest key

/-- Python subscript `v[k]` with a string key: only dicts support it, and a
missing key raises `KeyError` (modelled by `none`). -/
def PyVal.getItem : PyVal → String → Option PyVal
  | .dict kvs, k => kvs.lookup k
  | _, _ => Option.none

/-- Python iteration over a value: lists and tuples enumerate their elements,
anything else raises `TypeError` in the plugin's loops (modelled by `none`). -/
def PyVal.seq? : PyVal → Option (List PyVal)
  | .list xs => some xs.toList
  | .tuple xs => some xs.toList
  | _ => Option.none

/-- Python subscript `v[0]` on a sequence (used for `self.active[0]`). -/
def PyVal.first? : PyVal → Option PyVal
  | .list (.cons x _) => some x
  | .tuple (.cons x _) => some x
  | _ => Option.none

/-- Element count of a list/tuple value. -/
def PyVal.seqLength? : PyVal → Option Nat
  | .list xs => some xs.toList.length
  | .tuple xs => some xs.toList.length
  | _ => Option.none

/-- `v` is a sequence (tuple or list) of exactly two components. -/
def PyVal.isPair (v : PyVal) : Bool := v.seqLength? == some 2

/-! ### JSON documents and the host encode/decode pair -/

mutual
/-- A JSON document as produced by `sublime.encode_value`. -/
inductive JVal where
  | null
  | bool (b : Bool)
  | num (q : Rat)
  | str (s : String)
  | arr (xs : JList)
  | obj (kvs : JObj)
deriving DecidableEq
inductive JList where
  | nil
  | cons (hd : JVal) (tl : JList)
deriving DecidableEq
inductive JObj where
  | nil
  | cons (key : String) (val : JVal) (tl : JObj)
deriving DecidableEq
end

mutual
/-- Modelled host function `sublime.encode_value`: Python `None` becomes JSON
`null`, and both lists and tuples become JSON arrays. -/
def encode_value : PyVal → JVal
  | .none => .null
  | .bool b => .bool b
  | .num q => .num q
  | .str s => .str s
  | .list xs => .arr (encodeList xs)
  | .tuple xs => .arr (encodeList xs)
  | .dict kvs => .obj (encodeDict kvs)
def encodeList : PyList → JList
  | .nil => .nil
  | .cons x xs => .cons (encode_value x) (encodeList xs)
def encodeDict : PyDict → JObj
  | .nil => .nil
  | .cons k v rest => .cons k (encode_value v) (encodeDict rest)
end

mutual
/-- Modelled host function `sublime.decode_value`: JSON arrays decode to
Python lists (never tuples) and objects to dicts. -/
def decode_value : JVal → PyVal
  | .null => .none
  | .bool b => .bool b
  | .num q => .num q
  | .str s => .str s
  | .arr xs => .list (decodeList xs)
  | .obj kvs => .dict (decodeObj kvs)
def decodeList : JList → PyList
  | .nil => .nil
  | .cons x xs => .cons (decode_value x) (decodeList xs)
def decodeObj : JObj → PyDict
  | .nil => .nil
  | .cons k v rest => .cons k (decode_value v) (decodeObj rest)
end

mutual
/-- The effect of a JSON round trip on a Python value: every tuple is
replaced by a list, everything else is unchanged. -/
def pyNormalize : PyVal → PyVal
  | .none => .none
  | .bool b => .bool b
  | .num q => .num q
  | .str s => .str s
  | .list xs => .list (pyNormalizeList xs)
  | .tuple xs => .list (pyNormalizeList xs)
  | .dict kvs => .dict (pyNormalizeDict kvs)
def pyNormalizeList : PyList → PyList
  | .nil => .nil
  | .cons x xs => .cons (pyNormalize x) (pyNormalizeList xs)
def pyNormalizeDict : PyDict → PyDict
  | .nil => .nil
  | .cons k v rest => .cons k (pyNormalize v) (pyNormalizeDict rest)
end

mutual
/-- A value containing no tuple anywhere (e.g. anything returned by
`decode_value`). -/
def PyVal.tupleFree : PyVal → Bool
  | .none => true
  | .bool _ => true
  | .num _ => true
  | .str _ => true
  | .list xs => xs.tupleFree
  | .tuple _ => false
  | .dict kvs => kvs.tupleFree
def PyList.tupleFree : PyList → Bool
  | .nil => true
  | .cons x xs => x.tupleFree && xs.tupleFree
def PyDict.tupleFree : PyDict → Bool
  | .nil => true
  | .cons _ v rest => v.tupleFree && rest.tupleFree
end

mutual
theorem decode_encode : ∀ v : PyVal, decode_value (encode_value v) = pyNormalize v
  | .none => rfl
  | .bool _ => rfl
  | .num _ => rfl
  | .str _ => rfl
  | .list xs => by simp [encode_value, decode_value, pyNormalize, decodeList_encodeList xs]
  | .tuple xs => by simp [encode_value, decode_value, pyNormalize, decodeList_encodeList xs]
  | .dict kvs => by simp [encode_value, decode_value, pyNormalize, decodeObj_encodeDict kvs]
theorem decodeList_encodeList : ∀ xs : PyList, decodeList (encodeList xs) = pyNormalizeList xs
  | .nil => rfl
  | .cons x xs => by
      simp [encodeList, decodeList, pyNormalizeList, decode_encode x, decodeList_encodeList xs]
theorem decodeObj_encodeDict : ∀ kvs : PyDict, decodeObj (encodeDict kvs) = pyNormalizeDict kvs
  | .nil => rfl
  | .cons k v rest => by
      simp [encodeDict, decodeObj, pyNormalizeDict, decode_encode v, decodeObj_encodeDict rest]
end

mutual
theorem pyNormalize_of_tupleFree : ∀ v : PyVal, v.tupleFree = true → pyNormalize v = v
  | .none, _ => rfl
  | .bool _, _ => rfl
  | .num _, _ => rfl
  | .str _, _ => rfl
  | .list xs, h => by
      simp only [PyVal.tupleFree] at h
      simp [pyNormalize, pyNormalizeList_of_tupleFree xs h]
  | .dict kvs, h => by
      simp only [PyVal.tupleFree] at h
      simp [pyNormalize, pyNormalizeDict_of_tupleFree kvs h]
theorem pyNormalizeList_of_tupleFree :
    ∀ xs : PyList, xs.tupleFree = true → pyNormalizeList xs = xs
  | .nil, _ => rfl
  | .cons x xs, h => by
      simp only [PyList.tupleFree, Bool.and_eq_true] at h
      simp [pyNormalizeList, pyNormalize_of_tupleFree x h.1, pyNormalizeList_of_tupleFree xs h.2]
theorem pyNormalizeDict_of_tupleFree :
    ∀ kvs : PyDict, kvs.tupleFree = true → pyNormalizeDict kvs = kvs
  | .nil, _ => rfl
  | .cons k v rest, h => by
      simp only [PyDict.tupleFree, Bool.and_eq_true] at h
      simp [pyNormalizeDict, pyNormalize_of_tupleFree v h.1, pyNormalizeDict_of_tupleFree rest h.2]
end

/-! ### The workspace value object -/

/-- The `EasyWorkspace` value object.  The four data fields hold arbitrary
Python values because `buildFromJSON` assigns raw decoded JSON to them. -/
structure EasyWorkspace where
  layout : PyVal
  folders : PyVal
  active : PyVal
  groups : PyVal
  filename : String
deriving DecidableEq

/-- `EasyWorkspace.__init__`: layout is a one-cell grid, `folders` and
`groups` are empty lists, `active` is the empty tuple and `filename` the
empty string. -/
def EasyWorkspace.init : EasyWorkspace where
  layout := .dict (.cons "rows" (.list (.cons (.num 0) (.cons (.num 1) .nil)))
    (.cons "cells" (.list (.cons (.list (.cons (.num 0) (.cons (.num 0)
      (.cons (.num 1) (.cons (.num 1) .nil))))) .nil))
    (.cons "cols" (.list (.cons (.num 0) (.cons (.num 1) .nil))) .nil)))
  folders := .list .nil
  active := .tuple .nil
  groups := .list .nil
  filename := ""

/-- `vars(self)` for a workspace: its attribute dict in insertion order
(`layout`, `folders`, `active`, `groups`, `filename`). -/
def wsVars (ws : EasyWorkspace) : PyDict :=
  .cons "layout" ws.layout (.cons "folders" ws.folders (.cons "active" ws.active
    (.cons "groups" ws.groups (.cons "filename" (.str ws.filename) .nil))))

/-- The on-disk store of workspace files: each path maps to the JSON
document last written there. -/
abbrev FileSystem := List (String × JVal)

/-- Writing a file replaces any previous document at that path. -/
def FileSystem.write (fs : FileSystem) (path : String) (doc : JVal) : FileSystem :=
  (path, doc) :: fs

/-- Reading a file; `none` when no file exists at the path. -/
def FileSystem.read (fs : FileSystem) (path : String) : Option JVal :=
  List.lookup path fs

/-- `EasyWorkspace.saveToFile`: encodes `vars(self)` to the file, then sets
`self.filename`.  (The directory-creation step touches only the host file
system and is not modelled.)  Note the document is encoded before
`self.filename` is updated. -/
def EasyWorkspace.saveToFile (ws : EasyWorkspace) (fs : FileSystem) (filename : String) :
    FileSystem × EasyWorkspace :=
  (fs.write filename (encode_value (.dict (wsVars ws))), { ws with filename := filename })

/-- `EasyWorkspace.buildFromJSON`: copies the four entries of the decoded
document into the workspace; a missing key raises `KeyError` (`none`). -/
def EasyWorkspace.buildFromJSON (ws : EasyWorkspace) (json : PyVal) : Option EasyWorkspace := do
  let layout ← json.getItem "layout"
  let folders ← json.getItem "folders"
  let active ← json.getItem "active"
  let groups ← json.getItem "groups"
  pure { ws with layout := layout, folders := folders, active := active, groups := groups }

/-- `EasyWorkspace.loadFromFile`: decodes and copies the document when the
file exists; a missing file only statuses a message.  Either way the
workspace's `filename` is set to the requested name. -/
def EasyWorkspace.loadFromFile (ws : EasyWorkspace) (fs : FileSystem) (filename : String) :
    Option EasyWorkspace :=
  match fs.read filename with
  | some doc =>
      (ws.buildFromJSON (decode_value doc)).map fun ws' => { ws' with filename := filename }
  | Option.none => some { ws with filename := filename }

/-- The image of a workspace under a save/load round trip: each data field
is normalized (tuples become lists) and `filename` is the path loaded. -/
def roundtripImage (ws : EasyWorkspace) (filename : String) : EasyWorkspace where
  layout := pyNormalize ws.layout
  folders := pyNormalize ws.folders
  active := pyNormalize ws.active
  groups := pyNormalize ws.groups
  filename := filename

/-- All four data fields of a workspace are tuple-free. -/
def EasyWorkspace.tupleFree (ws : EasyWorkspace) : Bool :=
  ws.layout.tupleFree && ws.folders.tupleFree && ws.active.tupleFree && ws.groups.tupleFree

theorem read_write_self (fs : FileSystem) (path : String) (doc : JVal) :
    (fs.write path doc).read path = some doc := by
  simp [FileSystem.write, FileSystem.read, List.lookup]

/-- Claim C1 (corrected), counterexample to the claim as stated: saving the
fresh workspace (whose `active` is the empty tuple `()`) and loading the file
back yields `active = []`, a list, and in Python `() == []` is false — the
`active` fields of the saved and reloaded workspaces are not equal. -/
theorem save_load_not_exact :
    (EasyWorkspace.loadFromFile EasyWorkspace.init
        ((EasyWorkspace.saveToFile EasyWorkspace.init [] "w").1) "w").map EasyWorkspace.active =
      some (PyVal.list .nil)
    ∧ ((EasyWorkspace.saveToFile EasyWorkspace.init [] "w").2).active = PyVal.tuple .nil
    ∧ PyVal.list PyList.nil ≠ PyVal.tuple PyList.nil := by
  refine ⟨?_, rfl, by decide⟩
  rfl

/-- Claim C1 (amended): saving any workspace with `saveToFile` and loading
that file with `loadFromFile` on a fresh `EasyWorkspace` yields a workspace
whose `layout`, `folders`, `active` and `groups` are the saved workspace's
fields with every tuple replaced by a list (the image of the JSON round
trip); in particular the fields are equal whenever the saved fields contain
no tuples (e.g. a workspace that was itself loaded from a file). -/
theorem save_load_roundtrip (ws : EasyWorkspace) (fs : FileSystem) (fn : String) :
    EasyWorkspace.loadFromFile EasyWorkspace.init ((ws.saveToFile fs fn).1) fn =
      some (roundtripImage ws fn)
    ∧ (ws.tupleFree = true → roundtripImage ws fn = { ws with filename := fn }) := by
  constructor
  · show EasyWorkspace.loadFromFile _ (FileSystem.write _ _ _) _ = _
    rw [EasyWorkspace.loadFromFile, read_write_self]
    simp [decode_encode, pyNormalize, pyNormalizeDict, wsVars, EasyWorkspace.buildFromJSON,
      PyVal.getItem, PyDict.lookup, roundtripImage]
  · intro h
    simp only [EasyWorkspace.tupleFree, Bool.and_eq_true] at h
    simp [roundtripImage, pyNormalize_of_tupleFree _ h.1.1.1,
      pyNormalize_of_tupleFree _ h.1.1.2, pyNormalize_of_tupleFree _ h.1.2,
      pyNormalize_of_tupleFree _ h.2]

/-- Witness for `save_load_roundtrip` at a concrete tuple-free workspace. -/
theorem save_load_roundtrip_witness :
    EasyWorkspace.loadFromFile EasyWorkspace.init
        ((EasyWorkspace.saveToFile ⟨.num 1, .list .nil, .list .nil, .list .nil, ""⟩ [] "w").1) "w" =
      some (roundtripImage ⟨.num 1, .list .nil, .list .nil, .list .nil, ""⟩ "w")
    ∧ roundtripImage ⟨.num 1, .list .nil, .list .nil, .list .nil, ""⟩ "w" =
      { (⟨.num 1, .list .nil, .list .nil, .list .nil, ""⟩ : EasyWorkspace) with filename := "w" } :=
  ⟨(save_load_roundtrip ⟨.num 1, .list .nil, .list .nil, .list .nil, ""⟩ [] "w").1,
   (save_load_roundtrip ⟨.num 1, .list .nil, .list .nil, .list .nil, ""⟩ [] "w").2 (by decide)⟩

/-- Claim C8 (confirmed): loading a path with no file on disk leaves all four
data fields of the fresh workspace at their constructor defaults, raises
nothing, and still sets `filename` to the requested name. -/
theorem loadFromFile_missing_file (fs : FileSystem) (fn : String)
    (h : fs.read fn = Option.none) :
    EasyWorkspace.loadFromFile EasyWorkspace.init fs fn =
      some ⟨EasyWorkspace.init.layout, EasyWorkspace.init.folders,
        EasyWorkspace.init.active, EasyWorkspace.init.groups, fn⟩ := by
  rw [EasyWorkspace.loadFromFile, h]

/-- Witness for `loadFromFile_missing_file` on the empty file system. -/
theorem loadFromFile_missing_file_witness :
    EasyWorkspace.loadFromFile EasyWorkspace.init [] "absent.ws" =
      some ⟨EasyWorkspace.init.layout, EasyWorkspace.init.folders,
        EasyWorkspace.init.active, EasyWorkspace.init.groups, "absent.ws"⟩ :=
  loadFromFile_missing_file [] "absent.ws" rfl

/-! ### The host window and `buildFromWindow` -/

/-- A sublime view as read by the capture code: `file_name()` is `None` for a
transient or unsaved buffer, `visible_region()` and the primary selection
`sel()[0]` are point pairs, plus the read-only flag.  `viewId` models view
object identity (distinct views are distinct objects). -/
structure SView where
  viewId : Nat
  fileName : Option String
  visibleA : Int
  visibleB : Int
  selA : Int
  selB : Int
  readOnly : Bool
deriving DecidableEq

/-- A window group: `views_in_group(i)` and `active_view_in_group(i)`
(`none` when the host reports no active view). -/
structure WGroup where
  views : List SView
  activeView : Option SView
deriving DecidableEq

/-- A sublime window as read by the capture code: `layout()`,
`folders()`, `get_view_index(active_view())` (always a pair of ints),
and the per-group views. -/
structure Window where
  layout : PyVal
  folders : List String
  activeViewIndex : Int × Int
  groups : List WGroup
deriving DecidableEq

/-- `sView.file_name()` as a Python value: `None` or the path string. -/
def fileVal : Option String → PyVal
  | Option.none => .none
  | some s => .str s

/-- Python `list.index(x)`: the first position of `x`, `ValueError` (`none`)
when absent. -/
def pyListIndex [DecidableEq α] (xs : List α) (a : α) : Option Nat :=
  xs.findIdx? (fun x => x = a)

/-- The `view` dict captured for one file-backed view, in insertion order:
`file`, `visible`, `selection`, `read_only`; `visible` and `selection` are
Python tuples. -/
def viewRecord (v : SView) : PyVal :=
  .dict (.cons "file" (fileVal v.fileName)
    (.cons "visible" (.tuple (.cons (.num v.visibleA) (.cons (.num v.visibleB) .nil)))
    (.cons "selection" (.tuple (.cons (.num v.selA) (.cons (.num v.selB) .nil)))
    (.cons "read_only" (.bool v.readOnly) .nil))))

/-- `sViews.index(activeSView) if sViews else 0`: the stored per-group
active index.  With a nonempty group, `list.index` raises (`none`) if the
active view is not among the group's views (including `active_view_in_group`
returning `None`). -/
def capturedGroupActive (g : WGroup) : Option Nat :=
  if g.views.isEmpty then some 0
  else match g.activeView with
    | some v => pyListIndex g.views v
    | Option.none => Option.none

/-- The views a group persists: exactly its views whose `file_name()` is
truthy (a non-empty path string). -/
def persistedViews (g : WGroup) : List SView :=
  g.views.filter fun v => (fileVal v.fileName).truthy

/-- The `group` dict captured for one window group, in insertion order:
`active` then `views`. -/
def capturedGroup (g : WGroup) : Option PyVal := do
  let a ← capturedGroupActive g
  pure (.dict (.cons "active" (.num a)
    (.cons "views" (.list (PyList.ofList ((persistedViews g).map viewRecord))) .nil)))

/-- Extend a Python list value with new elements (the effect of the
`self.groups.append(group)` loop); `none` models the `AttributeError` raised
when `self.groups` is not a list. -/
def pyExtendList (v : PyVal) (xs : List PyVal) : Option PyVal :=
  match v with
  | .list ys => some (.list (ys.append (PyList.ofList xs)))
  | _ => Option.none

/-- The `for i in range(window.num_groups())` loop: one captured group dict
per window group, in order; an exception in any group aborts the capture. -/
def captureGroups : List WGroup → Option (List PyVal)
  | [] => some []
  | g :: gs => do
      let d ← capturedGroup g
      let ds ← captureGroups gs
      pure (d :: ds)

/-- `EasyWorkspace.buildFromWindow`: copies the window layout, folder list
and `get_view_index(active_view())` pair, then appends one captured group
dict per window group to `self.groups`.  `none` models an uncaught exception
during capture. -/
def EasyWorkspace.buildFromWindow (ws : EasyWorkspace) (w : Window) : Option EasyWorkspace := do
  let newGroups ← captureGroups w.groups
  let groups ← pyExtendList ws.groups newGroups
  pure { ws with
    layout := w.layout
    folders := .list (PyList.ofList (w.folders.map PyVal.str))
    active := .tuple (.cons (.num w.activeViewIndex.1)
      (.cons (.num w.activeViewIndex.2) .nil))
    groups := groups }

/-- The `i`-th group dict stored in a workspace's `groups` field. -/
def wsGroup? (ws : EasyWorkspace) (i : Nat) : Option PyVal :=
  (ws.groups.seq?).bind fun gs => gs.get? i

theorem toList_ofList (l : List PyVal) : (PyList.ofList l).toList = l := by
  induction l with
  | nil => rfl
  | cons x xs ih => simp [PyList.ofList, PyList.toList, ih]

theorem captureGroups_some :
    ∀ gs ds, captureGroups gs = some ds →
      ds.length = gs.length ∧
        ∀ i g, gs.get? i = some g → ∃ d, ds.get? i = some d ∧ capturedGroup g = some d := by
  intro gs
  induction gs with
  | nil =>
      intro ds h
      simp [captureGroups] at h
      subst h
      exact ⟨rfl, by intro i g h; simp at h⟩
  | cons g gs ih =>
      intro ds h
      simp only [captureGroups, Option.bind_eq_bind, Option.bind_eq_some] at h
      obtain ⟨d, hd, ds', hds', hcons⟩ := h
      obtain ⟨hlen, hget⟩ := ih ds' hds'
      simp only [Option.pure_def, Option.some_inj] at hcons
      subst hcons
      refine ⟨by simp [hlen], ?_⟩
      intro i g' hg'
      cases i with
      | zero =>
          simp only [List.get?] at hg'
          cases hg'
          exact ⟨d, rfl, hd⟩
      | succ n =>
          simp only [List.get?] at hg' ⊢
          exact hget n g' hg'

/-- Destructuring a successful `buildFromWindow` on the fresh workspace. -/
theorem buildFromWindow_init_some (w : Window) (ws' : EasyWorkspace)
    (h : EasyWorkspace.buildFromWindow EasyWorkspace.init w = some ws') :
    ∃ ds, captureGroups w.groups = some ds ∧
      ws' = { EasyWorkspace.init with
        layout := w.layout
        folders := .list (PyList.ofList (w.folders.map PyVal.str))
        active := .tuple (.cons (.num w.activeViewIndex.1)
          (.cons (.num w.activeViewIndex.2) .nil))
        groups := .list (PyList.ofList ds) } := by
  simp only [EasyWorkspace.buildFromWindow, Option.bind_eq_bind, Option.bind_eq_some] at h
  obtain ⟨ds, hds, groups, hgroups, hws⟩ := h
  refine ⟨ds, hds, ?_⟩
  simp only [EasyWorkspace.init, pyExtendList, PyList.append, Option.some_inj] at hgroups
  simp only [Option.pure_def, Option.some_inj] at hws
  subst hws
  subst hgroups
  rfl

/-- A transient view with no backing file. -/
def vNoFile : SView := ⟨0, Option.none, 0, 1, 2, 3, false⟩

/-- A view backed by the on-disk file `a.txt`. -/
def vFile : SView := ⟨1, some "a.txt", 4, 5, 6, 7, true⟩

/-- A group holding a transient view followed by a file-backed view, the
file-backed one focused. -/
def gMixed : WGroup := ⟨[vNoFile, vFile], some vFile⟩

/-- A one-group window whose only group is `gMixed`. -/
def wMixed : Window := ⟨.none, [], (0, 1), [gMixed]⟩

/-- The workspace captured from `wMixed`. -/
def wsMixed : EasyWorkspace :=
  (EasyWorkspace.buildFromWindow EasyWorkspace.init wMixed).getD EasyWorkspace.init

/-- Claim C2 (confirmed): capturing a window stores one group dict per window
group; each group dict's `views` list holds exactly the records of the
group's views whose `file_name()` is a truthy path, in order; and a view with
no backing file contributes no record to the group's persisted views list. -/
theorem buildFromWindow_persists_only_file_views (w : Window) (ws' : EasyWorkspace)
    (h : EasyWorkspace.buildFromWindow EasyWorkspace.init w = some ws') :
    ws'.groups.seqLength? = some w.groups.length
    ∧ (∀ i g, w.groups.get? i = some g → ∃ a : Nat,
        wsGroup? ws' i = some (.dict (.cons "active" (.num a)
          (.cons "views" (.list (PyList.ofList ((persistedViews g).map viewRecord))) .nil))))
    ∧ (∀ g : WGroup, ∀ v ∈ g.views, (fileVal v.fileName).truthy = false →
        viewRecord v ∉ (persistedViews g).map viewRecord) := by
  obtain ⟨ds, hds, hws⟩ := buildFromWindow_init_some w ws' h
  obtain ⟨hlen, hget⟩ := captureGroups_some _ _ hds
  subst hws
  refine ⟨by simp [PyVal.seqLength?, toList_ofList, hlen], ?_, ?_⟩
  · intro i g hg
    obtain ⟨d, hdi, hcap⟩ := hget i g hg
    simp only [capturedGroup, Option.bind_eq_bind, Option.bind_eq_some, Option.pure_def,
      Option.some_inj] at hcap
    obtain ⟨a, ha, hd⟩ := hcap
    have hdi' : ds[i]? = some d := by simpa [List.get?_eq_getElem?] using hdi
    exact ⟨a, by simp [wsGroup?, PyVal.seq?, toList_ofList, List.get?_eq_getElem?, hdi', ← hd]⟩
  · intro g v hv hfalse hmem
    simp only [List.mem_map] at hmem
    obtain ⟨v', hv', heq⟩ := hmem
    have htruthy : (fileVal v'.fileName).truthy = true :=
      (List.mem_filter.mp hv').2
    have hfile : fileVal v'.fileName = fileVal v.fileName := by
      simpa [viewRecord, PyVal.getItem, PyDict.lookup] using
        congrArg (fun r => r.getItem "file") heq
    rw [hfile, hfalse] at htruthy
    exact Bool.false_ne_true htruthy

/-- Witness for `buildFromWindow_persists_only_file_views` on the concrete
window `wMixed`. -/
theorem buildFromWindow_persists_only_file_views_witness :
    wsMixed.groups.seqLength? = some wMixed.groups.length
    ∧ (∀ i g, wMixed.groups.get? i = some g → ∃ a : Nat,
        wsGroup? wsMixed i = some (.dict (.cons "active" (.num a)
          (.cons "views" (.list (PyList.ofList ((persistedViews g).map viewRecord))) .nil))))
    ∧ (∀ g : WGroup, ∀ v ∈ g.views, (fileVal v.fileName).truthy = false →
        viewRecord v ∉ (persistedViews g).map viewRecord) :=
  buildFromWindow_persists_only_file_views wMixed wsMixed (by decide)

/-- Claim C4 (corrected), counterexample to the claim as stated: in `wMixed`
the focused view `vFile` sits behind a transient view, so the stored group
`active` is `1` (its index among all open views of the group) while the
index of the focused view within the persisted views list is `0`. -/
theorem storedActive_ne_persisted_index :
    EasyWorkspace.buildFromWindow EasyWorkspace.init wMixed = some wsMixed
    ∧ ((wsGroup? wsMixed 0).bind fun d => d.getItem "active") = some (.num 1)
    ∧ gMixed.activeView = some vFile
    ∧ pyListIndex (persistedViews gMixed) vFile = some 0
    ∧ PyVal.num 1 ≠ PyVal.num 0 := by
  decide

/-- Claim C4 (amended): the stored group `active` is the index of the
group's focused view within the group's full `views_in_group` list (all open
views, before the file-backed filter), and `0` for an empty group. -/
theorem storedActive_is_full_list_index (w : Window) (ws' : EasyWorkspace)
    (h : EasyWorkspace.buildFromWindow EasyWorkspace.init w = some ws') :
    ∀ i g, w.groups.get? i = some g →
      ∃ a : Nat, ((wsGroup? ws' i).bind fun d => d.getItem "active") = some (.num a)
        ∧ capturedGroupActive g = some a
        ∧ ((g.views = [] ∧ a = 0)
            ∨ ∃ v, g.activeView = some v ∧ pyListIndex g.views v = some a) := by
  obtain ⟨ds, hds, hws⟩ := buildFromWindow_init_some w ws' h
  obtain ⟨hlen, hget⟩ := captureGroups_some _ _ hds
  subst hws
  intro i g hg
  obtain ⟨d, hdi, hcap⟩ := hget i g hg
  simp only [capturedGroup, Option.bind_eq_bind, Option.bind_eq_some, Option.pure_def,
    Option.some_inj] at hcap
  obtain ⟨a, ha, hd⟩ := hcap
  have hdi' : ds[i]? = some d := by simpa [List.get?_eq_getElem?] using hdi
  refine ⟨a, by simp [wsGroup?, PyVal.seq?, toList_ofList, List.get?_eq_getElem?, hdi', ← hd,
    PyVal.getItem, PyDict.lookup], ha, ?_⟩
  rw [capturedGroupActive] at ha
  by_cases hemp : g.views.isEmpty
  · left
    rw [if_pos hemp] at ha
    cases ha
    exact ⟨List.isEmpty_iff.mp hemp, rfl⟩
  · right
    rw [if_neg hemp] at ha
    cases hav : g.activeView with
    | none => rw [hav] at ha; cases ha
    | some v => rw [hav] at ha; exact ⟨v, rfl, ha⟩

/-- Witness for `storedActive_is_full_list_index` on the concrete window
`wMixed` at group 0. -/
theorem storedActive_is_full_list_index_witness :
    wMixed.groups.get? 0 = some gMixed
    ∧ ∃ a : Nat, ((wsGroup? wsMixed 0).bind fun d => d.getItem "active") = some (.num a)
        ∧ capturedGroupActive gMixed = some a
        ∧ ((gMixed.views = [] ∧ a = 0)
            ∨ ∃ v, gMixed.activeView = some v ∧ pyListIndex gMixed.views v = some a) :=
  ⟨by decide, storedActive_is_full_list_index wMixed wsMixed (by decide) 0 gMixed (by decide)⟩

/-- A decoded document with all four workspace keys, `active` being a plain
number. -/
def jdoc : PyVal :=
  .dict (.cons "layout" .none (.cons "folders" .none
    (.cons "active" (.num 7) (.cons "groups" .none .nil))))

/-- The workspace `buildFromJSON` constructs from `jdoc`. -/
def jdocWs : EasyWorkspace :=
  (EasyWorkspace.buildFromJSON EasyWorkspace.init jdoc).getD EasyWorkspace.init

/-- Claim C6 (corrected), counterexample to the claim as stated: the freshly
constructed workspace's `active` is the empty tuple `()`, which does not
have two components. -/
theorem init_active_not_pair :
    EasyWorkspace.init.active = PyVal.tuple PyList.nil
    ∧ PyVal.isPair EasyWorkspace.init.active = false := by
  decide

/-- Claim C6 (amended): `buildFromWindow` stores the two-component
`get_view_index` pair in `active`, but fresh construction leaves `active`
the empty tuple, and `buildFromJSON` copies into `active` whatever value the
document's `active` entry holds. -/
theorem active_field_shape :
    EasyWorkspace.init.active = PyVal.tuple PyList.nil
    ∧ (∀ w ws', EasyWorkspace.buildFromWindow EasyWorkspace.init w = some ws' →
        ws'.active = .tuple (.cons (.num w.activeViewIndex.1)
          (.cons (.num w.activeViewIndex.2) .nil))
        ∧ PyVal.isPair ws'.active = true)
    ∧ (∀ ws json ws2, EasyWorkspace.buildFromJSON ws json = some ws2 →
        json.getItem "active" = some ws2.active) := by
  refine ⟨rfl, ?_, ?_⟩
  · intro w ws' h
    obtain ⟨ds, hds, hws⟩ := buildFromWindow_init_some w ws' h
    subst hws
    exact ⟨rfl, rfl⟩
  · intro ws json ws2 h
    simp only [EasyWorkspace.buildFromJSON, Option.bind_eq_bind, Option.bind_eq_some,
      Option.pure_def, Option.some_inj] at h
    obtain ⟨l, hl, f, hf, a, ha, g, hg, hws2⟩ := h
    subst hws2
    exact ha

/-- Witness for `active_field_shape` at the concrete window `wMixed` and the
concrete document `jdoc`. -/
theorem active_field_shape_witness :
    (wsMixed.active = .tuple (.cons (.num wMixed.activeViewIndex.1)
        (.cons (.num wMixed.activeViewIndex.2) .nil))
      ∧ PyVal.isPair wsMixed.active = true)
    ∧ jdoc.getItem "active" = some jdocWs.active :=
  ⟨active_field_shape.2.1 wMixed wsMixed (by decide),
   active_field_shape.2.2 EasyWorkspace.init jdoc jdocWs (by decide)⟩

/-! ### `applyToWindow` -/

/-- A focus command issued by the final phase of `applyToWindow`:
`window.focus_view(window.views_in_group(i)[idx])` or
`window.focus_group(g)`. -/
inductive FocusAction where
  | view (group : Nat) (index : PyVal)
  | group (g : PyVal)
deriving DecidableEq

/-- The inner `for j, view in enumerate(group['views'])` loop: records the
`view['file']` value opened at each `(i, j)`; a missing `file` key raises
`KeyError` (`none`). -/
def viewsOpenLoop (i : Nat) : Nat → List PyVal → Option (List (Nat × Nat × PyVal))
  | _, [] => some []
  | j, v :: rest => do
      let f ← v.getItem "file"
      let tail ← viewsOpenLoop i (j + 1) rest
      pure ((i, j, f) :: tail)

/-- The outer `for i, group in enumerate(self.groups)` open loop: each
group's `views` entry must be a sequence. -/
def groupsOpenLoop : Nat → List PyVal → Option (List (Nat × Nat × PyVal))
  | _, [] => some []
  | i, g :: gs => do
      let vsVal ← g.getItem "views"
      let vs ← vsVal.seq?
      let here ← viewsOpenLoop i 0 vs
      let rest ← groupsOpenLoop (i + 1) gs
      pure (here ++ rest)

/-- The `set active views per group` loop (lines 186-188): group `i` gets a
`focus_view` command at its stored `active` index exactly when that stored
value is truthy. -/
def groupFocusActions : Nat → List PyVal → Option (List FocusAction)
  | _, [] => some []
  | i, g :: gs => do
      let a ← g.getItem "active"
      let rest ← groupFocusActions (i + 1) gs
      pure ((if a.truthy then [FocusAction.view i a] else []) ++ rest)

/-- The observable per-view effects of `applyToWindow`: the files opened into
each group slot, and the focus commands issued at the end. -/
structure ApplyEffects where
  openedViews : List (Nat × Nat × PyVal)
  focus : List FocusAction
deriving DecidableEq

/-- Lines 189-190: `if self.active: window.focus_group(self.active[0])` —
one `focus_group` command when `self.active` is truthy, none otherwise;
`self.active[0]` on a truthy non-sequence raises (`none`). -/
def activeGroupFocus (ws : EasyWorkspace) : Option (List FocusAction) :=
  if ws.active.truthy then
    (ws.active.first?).map fun x => [FocusAction.group x]
  else some []

/-- `EasyWorkspace.applyToWindow`, as its effect trace on the window: opens
every persisted view, then focuses each group's stored active view when that
index is truthy, and finally focuses group `self.active[0]` when
`self.active` is truthy.  Host-only steps (closing old views, setting the
layout, opening folders, the settings-guarded visible-region/selection
restoration and the sleep) touch no plugin state and are not recorded. -/
def EasyWorkspace.applyToWindow (ws : EasyWorkspace) : Option ApplyEffects := do
  let gs ← ws.groups.seq?
  let opened ← groupsOpenLoop 0 gs
  let fv ← groupFocusActions 0 gs
  let fg ← activeGroupFocus ws
  pure ⟨opened, fv ++ fg⟩

theorem groupFocusActions_only_views :
    ∀ (k : Nat) (gs : List PyVal) (acts : List FocusAction),
      groupFocusActions k gs = some acts →
        ∀ act ∈ acts, ∃ i b, act = FocusAction.view i b := by
  intro k gs
  induction gs generalizing k with
  | nil =>
      intro acts h
      simp [groupFocusActions] at h
      subst h
      simp
  | cons g gs ih =>
      intro acts h
      simp only [groupFocusActions, Option.bind_eq_bind, Option.bind_eq_some, Option.pure_def,
        Option.some_inj] at h
      obtain ⟨a, ha, rest, hrest, hacts⟩ := h
      subst hacts
      intro act hact
      rcases List.mem_append.mp hact with hleft | hright
      · by_cases ht : a.truthy = true
        · rw [if_pos ht, List.mem_singleton] at hleft
          exact ⟨k, a, hleft⟩
        · rw [if_neg ht] at hleft
          simp at hleft
      · exact ih (k + 1) rest hrest act hright

theorem groupFocusActions_view_mem :
    ∀ (k : Nat) (gs : List PyVal) (acts : List FocusAction),
      groupFocusActions k gs = some acts →
        ∀ i b, FocusAction.view i b ∈ acts ↔
          ∃ g, k ≤ i ∧ gs.get? (i - k) = some g ∧ g.getItem "active" = some b
            ∧ b.truthy = true := by
  intro k gs
  induction gs generalizing k with
  | nil =>
      intro acts h i b
      simp [groupFocusActions] at h
      subst h
      simp
  | cons g gs ih =>
      intro acts h i b
      simp only [groupFocusActions, Option.bind_eq_bind, Option.bind_eq_some, Option.pure_def,
        Option.some_inj] at h
      obtain ⟨a, ha, rest, hrest, hacts⟩ := h
      subst hacts
      rw [List.mem_append, ih (k + 1) rest hrest i b]
      constructor
      · rintro (hleft | ⟨g', hk, hget, hitem, htruthy⟩)
        · by_cases ht : a.truthy = true
          · rw [if_pos ht, List.mem_singleton] at hleft
            simp only [FocusAction.view.injEq] at hleft
            obtain ⟨hik, hba⟩ := hleft
            subst hik
            subst hba
            exact ⟨g, le_refl _, by simp, ha, ht⟩
          · rw [if_neg ht] at hleft
            simp at hleft
        · refine ⟨g', by omega, ?_, hitem, htruthy⟩
          have hik : i - k = (i - (k + 1)) + 1 := by omega
          rw [hik]
          simpa using hget
      · rintro ⟨g', hk, hget, hitem, htruthy⟩
        rcases Nat.eq_or_lt_of_le hk with heq | hlt
        · subst heq
          simp only [Nat.sub_self, List.get?] at hget
          cases hget
          rw [ha] at hitem
          cases hitem
          left
          rw [if_pos htruthy, List.mem_singleton]
        · right
          refine ⟨g', by omega, ?_, hitem, htruthy⟩
          have hik : i - k = (i - (k + 1)) + 1 := by omega
          rw [hik] at hget
          simpa using hget

/-- A loaded-looking workspace whose single group stores active index `0`
and whose `active` field is the list `[0, 0]`. -/
def wsFocusZero : EasyWorkspace :=
  ⟨.none, .list .nil, .list (.cons (.num 0) (.cons (.num 0) .nil)),
    .list (.cons (.dict (.cons "active" (.num 0) (.cons "views" (.list .nil) .nil))) .nil), "f"⟩

/-- Like `wsFocusZero` but with stored group active index `1`. -/
def wsFocusOne : EasyWorkspace :=
  ⟨.none, .list .nil, .list (.cons (.num 0) (.cons (.num 0) .nil)),
    .list (.cons (.dict (.cons "active" (.num 1) (.cons "views" (.list .nil) .nil))) .nil), "f"⟩

/-- The effects of applying `wsFocusOne`. -/
def effFocusOne : ApplyEffects :=
  (EasyWorkspace.applyToWindow wsFocusOne).getD ⟨[], []⟩

/-- Claim C9 (corrected), counterexample to the claim as stated: on a
workspace whose `active` is `[0, 0]`, `applyToWindow` does issue a
`focus_group` command — `if self.active:` only tests that the sequence is
non-empty — even though the first component `0` is not nonzero (it is
falsy). -/
theorem focus_group_despite_zero_component :
    EasyWorkspace.applyToWindow wsFocusZero = some ⟨[], [FocusAction.group (.num 0)]⟩
    ∧ wsFocusZero.active.first? = some (.num 0)
    ∧ (PyVal.num 0).truthy = false := by
  decide

/-- Claim C9 (amended): a group with falsy (zero) stored active index gets no
`focus_view` command and a truthy stored index yields one at that index; the
final `focus_group` is issued exactly when the workspace's `active` value is
truthy (a non-empty sequence), targeting `active[0]` whatever its value. -/
theorem applyToWindow_focus_exact (ws : EasyWorkspace) (eff : ApplyEffects)
    (h : ws.applyToWindow = some eff) :
    (∀ i g a gs, ws.groups.seq? = some gs → gs.get? i = some g →
        g.getItem "active" = some a → a.truthy = false →
        ∀ b, FocusAction.view i b ∉ eff.focus)
    ∧ (∀ i g a gs, ws.groups.seq? = some gs → gs.get? i = some g →
        g.getItem "active" = some a → a.truthy = true →
        FocusAction.view i a ∈ eff.focus)
    ∧ (∀ x, FocusAction.group x ∈ eff.focus →
        ws.active.truthy = true ∧ ws.active.first? = some x)
    ∧ (ws.active.truthy = true →
        ∃ x, ws.active.first? = some x ∧ FocusAction.group x ∈ eff.focus) := by
  simp only [EasyWorkspace.applyToWindow, Option.bind_eq_bind, Option.bind_eq_some,
    Option.pure_def, Option.some_inj] at h
  obtain ⟨gs, hgs, opened, hopened, fv, hfv, fg, hfg, heff⟩ := h
  subst heff
  have hfg' : (ws.active.truthy = true ∧ ∃ x, ws.active.first? = some x
        ∧ fg = [FocusAction.group x])
      ∨ (ws.active.truthy = false ∧ fg = []) := by
    rw [activeGroupFocus] at hfg
    by_cases ht : ws.active.truthy = true
    · rw [if_pos ht] at hfg
      cases hx : ws.active.first? with
      | none => rw [hx] at hfg; cases hfg
      | some x =>
          rw [hx] at hfg
          rw [Option.map_some'] at hfg
          cases hfg
          exact Or.inl ⟨ht, x, rfl, rfl⟩
    · rw [if_neg ht] at hfg
      cases hfg
      exact Or.inr ⟨Bool.not_eq_true _ ▸ ht, rfl⟩
  refine ⟨?_, ?_, ?_, ?_⟩
  · intro i g a gs' hgs' hget hitem hfalse b hmem
    rw [hgs] at hgs'
    cases hgs'
    rcases List.mem_append.mp hmem with hinfv | hinfg
    · obtain ⟨g', _, hget', hitem', htruthy'⟩ :=
        (groupFocusActions_view_mem 0 gs fv hfv i b).mp hinfv
      rw [Nat.sub_zero] at hget'
      rw [hget] at hget'
      cases hget'
      rw [hitem] at hitem'
      cases hitem'
      rw [hfalse] at htruthy'
      exact Bool.false_ne_true htruthy'
    · rcases hfg' with ⟨_, x, _, hfgeq⟩ | ⟨_, hfgeq⟩
      · subst hfgeq
        rw [List.mem_singleton] at hinfg
        cases hinfg
      · subst hfgeq
        simp at hinfg
  · intro i g a gs' hgs' hget hitem htruthy
    rw [hgs] at hgs'
    cases hgs'
    apply List.mem_append.mpr
    left
    exact (groupFocusActions_view_mem 0 gs fv hfv i a).mpr
      ⟨g, Nat.zero_le i, by rw [Nat.sub_zero]; exact hget, hitem, htruthy⟩
  · intro x hmem
    rcases List.mem_append.mp hmem with hinfv | hinfg
    · obtain ⟨i, b, hib⟩ := groupFocusActions_only_views 0 gs fv hfv _ hinfv
      cases hib
    · rcases hfg' with ⟨ht, x', hx', hfgeq⟩ | ⟨_, hfgeq⟩
      · subst hfgeq
        rw [List.mem_singleton] at hinfg
        cases hinfg
        exact ⟨ht, hx'⟩
      · subst hfgeq
        simp at hinfg
  · intro ht
    rcases hfg' with ⟨_, x, hx, hfgeq⟩ | ⟨hf, _⟩
    · subst hfgeq
      exact ⟨x, hx, List.mem_append.mpr (Or.inr (List.mem_singleton.mpr rfl))⟩
    · rw [ht] at hf
      cases hf

/-- Witness for `applyToWindow_focus_exact` on the concrete workspace
`wsFocusOne`. -/
theorem applyToWindow_focus_exact_witness :
    (∀ i g a gs, wsFocusOne.groups.seq? = some gs → gs.get? i = some g →
        g.getItem "active" = some a → a.truthy = false →
        ∀ b, FocusAction.view i b ∉ effFocusOne.focus)
    ∧ (∀ i g a gs, wsFocusOne.groups.seq? = some gs → gs.get? i = some g →
        g.getItem "active" = some a → a.truthy = true →
        FocusAction.view i a ∈ effFocusOne.focus)
    ∧ (∀ x, FocusAction.group x ∈ effFocusOne.focus →
        wsFocusOne.active.truthy = true ∧ wsFocusOne.active.first? = some x)
    ∧ (wsFocusOne.active.truthy = true →
        ∃ x, wsFocusOne.active.first? = some x ∧ FocusAction.group x ∈ effFocusOne.focus) :=
  applyToWindow_focus_exact wsFocusOne effFocusOne (by decide)

/-! ### Settings and path resolution -/

/-- The host settings object `EasyWorkspace.sublime-settings`: a lookup from
setting names to values. -/
abbrev Settings := String → Option PyVal

/-- `settings.get(key, default)`. -/
def Settings.get (st : Settings) (key : String) (dflt : PyVal) : PyVal :=
  (st key).getD dflt

/-- Python `str.rfind` as an option: the index of the last occurrence of `c`
in the character list, if any. -/
def rfindAux (c : Char) : List Char → Option Nat
  | [] => Option.none
  | x :: xs =>
      match rfindAux c xs with
      | some k => some (k + 1)
      | Option.none => if x = c then some 0 else Option.none

/-- Python `str.rfind`: last index of `c`, or `-1` when absent. -/
def rfind (c : Char) (l : List Char) : Int :=
  match rfindAux c l with
  | some k => (k : Int)
  | Option.none => -1

/-- The scan in CPython's `_splitext` between the last separator and the
last dot: does `p[start:stop]` contain a character other than a dot? -/
def hasNonDotChar (p : List Char) (start stop : Nat) : Bool :=
  ((p.drop start).take (stop - start)).any fun ch => ch != '.'

/-- CPython `posixpath.splitext` (via `genericpath._splitext` with
`sep = '/'`, no `altsep`, `extsep = '.'`): split at the last dot when it
comes after the last separator and the final component is not made only of
leading dots. -/
def splitextChars (p : List Char) : List Char × List Char :=
  let sepIndex := rfind '/' p
  let dotIndex := rfind '.' p
  if sepIndex < dotIndex then
    if hasNonDotChar p (sepIndex + 1).toNat dotIndex.toNat then
      (p.take dotIndex.toNat, p.drop dotIndex.toNat)
    else (p, [])
  else (p, [])

/-- CPython `posixpath.join` for two components. -/
def joinChars (a b : List Char) : List Char :=
  if b.head? = some '/' then b
  else if a = [] ∨ a.getLast? = some '/' then a ++ b
  else a ++ '/' :: b

/-- `os.path.splitext` on strings. -/
def os_path_splitext (s : String) : String × String :=
  (String.mk (splitextChars s.data).1, String.mk (splitextChars s.data).2)

/-- `os.path.join` on strings (the host runs on a posix path module here;
`os.path.sep` is `'/'`). -/
def os_path_join (a b : String) : String :=
  String.mk (joinChars a.data b.data)

/-- `EasyWorkspaceCommand.getWorkspacesDir`: joins `sublime.packages_path()`
with the configured save directory plus a trailing separator; a non-string
setting raises `TypeError` on the concatenation (`none`). -/
def getWorkspacesDir (packagesPath : String) (settings : Settings) : Option String :=
  match settings.get "easy_ws_save_directory" (.str "EasyWorkspace/workspaces") with
  | .str wsFolder => some (os_path_join packagesPath (wsFolder ++ "/"))
  | _ => Option.none

/-- The configured default workspace extension
(`settings.get('easy_ws_file_extension', '.ws')`); a non-string value raises
`TypeError` on the later concatenation (`none`). -/
def defaultExtension (settings : Settings) : Option String :=
  match settings.get "easy_ws_file_extension" (.str ".ws") with
  | .str e => some e
  | _ => Option.none

/-- `EasyWorkspaceCommand.getWorkspaceFilepath`: resolves a filename to the
workspaces directory, appending the configured default extension when
`os.path.splitext` finds none. -/
def getWorkspaceFilepath (packagesPath : String) (settings : Settings) (filename : String) :
    Option String := do
  let workspacesDir ← getWorkspacesDir packagesPath settings
  let baseName := (os_path_splitext filename).1
  let extension := (os_path_splitext filename).2
  let ext ← if extension = "" then defaultExtension settings else some extension
  pure (os_path_join workspacesDir (baseName ++ ext))

theorem rfindAux_lt_length (c : Char) :
    ∀ (l : List Char) (k : Nat), rfindAux c l = some k → k < l.length := by
  intro l
  induction l with
  | nil => intro k h; simp [rfindAux] at h
  | cons x xs ih =>
      intro k h
      rw [rfindAux] at h
      cases hxs : rfindAux c xs with
      | some m =>
          rw [hxs] at h
          cases h
          exact Nat.succ_lt_succ (ih m hxs)
      | none =>
          rw [hxs] at h
          by_cases hx : x = c
          · rw [if_pos hx] at h
            cases h
            exact Nat.succ_pos _
          · rw [if_neg hx] at h
            cases h

theorem rfindAux_get (c : Char) :
    ∀ (l : List Char) (k : Nat), rfindAux c l = some k → l.get? k = some c := by
  intro l
  induction l with
  | nil => intro k h; simp [rfindAux] at h
  | cons x xs ih =>
      intro k h
      rw [rfindAux] at h
      cases hxs : rfindAux c xs with
      | some m =>
          rw [hxs] at h
          cases h
          exact ih m hxs
      | none =>
          rw [hxs] at h
          by_cases hx : x = c
          · rw [if_pos hx] at h
            cases h
            simp [hx]
          · rw [if_neg hx] at h
            cases h

theorem rfindAux_append (c : Char) (q : List Char) :
    ∀ p : List Char, rfindAux c (p ++ q) =
      match rfindAux c q with
      | some k => some (p.length + k)
      | Option.none => rfindAux c p := by
  intro p
  induction p with
  | nil =>
      cases hq : rfindAux c q with
      | some k => simp [hq]
      | none => simp [hq, rfindAux]
  | cons x p ih =>
      show rfindAux c (x :: (p ++ q)) = _
      rw [rfindAux, ih]
      cases hq : rfindAux c q with
      | some k =>
          simp only [List.length_cons]
          have hk : p.length + k + 1 = p.length + 1 + k := by omega
          rw [hk]
      | none =>
          conv_rhs => rw [rfindAux]

theorem splitextChars_concat (p : List Char) :
    (splitextChars p).1 ++ (splitextChars p).2 = p := by
  rw [splitextChars]
  by_cases h1 : rfind '/' p < rfind '.' p
  · rw [if_pos h1]
    by_cases h2 : hasNonDotChar p (rfind '/' p + 1).toNat (rfind '.' p).toNat = true
    · rw [if_pos h2]
      exact List.take_append_drop _ p
    · rw [if_neg h2]
      exact List.append_nil p
  · rw [if_neg h1]
    exact List.append_nil p

theorem splitextChars_ext_empty (p : List Char) (h : (splitextChars p).2 = []) :
    (splitextChars p).1 = p := by
  have := splitextChars_concat p
  rw [h, List.append_nil] at this
  exact this

theorem splitextChars_ext_head (p : List Char) (h : (splitextChars p).2 ≠ []) :
    (splitextChars p).2.head? = some '.' ∧ (splitextChars p).1.length < p.length := by
  rw [splitextChars] at h ⊢
  by_cases h1 : rfind '/' p < rfind '.' p
  · rw [if_pos h1] at h ⊢
    by_cases h2 : hasNonDotChar p (rfind '/' p + 1).toNat (rfind '.' p).toNat = true
    · rw [if_pos h2] at h ⊢
      cases hk : rfindAux '.' p with
      | none =>
          exfalso
          simp only [rfind, hk] at h1
          cases hs : rfindAux '/' p <;> simp only [hs] at h1 <;> omega
      | some k =>
          have hklen : k < p.length := rfindAux_lt_length '.' p k hk
          have hget : p.get? k = some '.' := rfindAux_get '.' p k hk
          have hdot : (rfind '.' p).toNat = k := by rw [rfind, hk]; simp
          constructor
          · rw [hdot]
            have hh : (p.drop k).head? = (p.drop k).get? 0 := by
              cases p.drop k <;> rfl
            rw [hh, List.get?_drop, Nat.add_zero]
            exact hget
          · rw [hdot]
            simp only [List.length_take]
            omega


    · rw [if_neg h2] at h
      simp at h
  · rw [if_neg h1] at h
    simp at h

theorem hasNonDotChar_append (p q : List Char) (s : Nat) (hs : s ≤ p.length) :
    hasNonDotChar (p ++ q) s p.length = hasNonDotChar p s p.length := by
  rw [hasNonDotChar, hasNonDotChar, List.drop_append_of_le_length hs]
  have hlen : (p.drop s).length = p.length - s := List.length_drop _ _
  rw [List.take_left' hlen, ← hlen, List.take_length _]

theorem splitextChars_append_ext (p ext : List Char)
    (hext : rfindAux '.' ext = some 0)
    (hsep : rfindAux '/' ext = Option.none)
    (hnd : hasNonDotChar p (rfind '/' p + 1).toNat p.length = true) :
    splitextChars (p ++ ext) = (p, ext) := by
  have hdot : rfindAux '.' (p ++ ext) = some p.length := by
    rw [rfindAux_append '.' ext p, hext]
    simp
  have hsep' : rfindAux '/' (p ++ ext) = rfindAux '/' p := by
    rw [rfindAux_append '/' ext p, hsep]
  have hseplt : rfind '/' (p ++ ext) < rfind '.' (p ++ ext) := by
    rw [rfind, rfind, hdot, hsep']
    cases hs : rfindAux '/' p with
    | none => simp only []; omega
    | some s =>
        have := rfindAux_lt_length '/' p s hs
        simp only []
        omega
  have hsepeq : rfind '/' (p ++ ext) = rfind '/' p := by rw [rfind, rfind, hsep']
  have hdoteq : (rfind '.' (p ++ ext)).toNat = p.length := by rw [rfind, hdot]; simp
  have hstart : ((rfind '/' (p ++ ext)) + 1).toNat ≤ p.length := by
    rw [hsepeq]
    cases hs : rfindAux '/' p with
    | none => rw [rfind, hs]; simp
    | some s =>
        have := rfindAux_lt_length '/' p s hs
        rw [rfind, hs]
        simp only [Int.toNat_ofNat]
        omega
  rw [splitextChars, if_pos hseplt, hdoteq]
  rw [hsepeq] at hstart ⊢
  rw [hasNonDotChar_append p ext _ hstart, hnd, if_pos rfl]
  rw [List.take_left' rfl, List.drop_left _ _]

theorem head?_take_of_ne_nil (p : List Char) (n : Nat) (h : p.take n ≠ []) :
    (p.take n).head? = p.head? := by
  cases p with
  | nil => simp at h
  | cons x xs =>
      cases n with
      | zero => simp at h
      | succ m => rfl

theorem joinChars_getLast (a b : List Char) (c : Char) (hb : b.getLast? = some c) :
    (joinChars a b).getLast? = some c := by
  rw [joinChars]
  by_cases h1 : b.head? = some '/'
  · rw [if_pos h1]; exact hb
  · rw [if_neg h1]
    by_cases h2 : a = [] ∨ a.getLast? = some '/'
    · rw [if_pos h2, List.getLast?_append, hb]; rfl
    · rw [if_neg h2]
      have : a ++ '/' :: b = a ++ ['/'] ++ b := by simp
      rw [this, List.getLast?_append, hb]; rfl

theorem joinChars_of_sep_end (a b : List Char) (ha : a.getLast? = some '/')
    (hb : b.head? ≠ some '/') : joinChars a b = a ++ b := by
  rw [joinChars, if_neg hb, if_pos (Or.inr ha)]

theorem getWorkspacesDir_getLast (pp : String) (st : Settings) (dir : String)
    (h : getWorkspacesDir pp st = some dir) : dir.data.getLast? = some '/' := by
  rw [getWorkspacesDir] at h
  cases hset : Settings.get st "easy_ws_save_directory" (.str "EasyWorkspace/workspaces") with
  | str wsFolder =>
      rw [hset] at h
      cases h
      show (joinChars pp.data (wsFolder ++ "/").data).getLast? = some '/'
      apply joinChars_getLast
      rw [String.data_append]
      exact List.getLast?_concat _
  | none => rw [hset] at h; cases h
  | bool b => rw [hset] at h; cases h
  | num q => rw [hset] at h; cases h
  | list xs => rw [hset] at h; cases h
  | tuple xs => rw [hset] at h; cases h
  | dict kvs => rw [hset] at h; cases h

/-- The name `getWorkspaceFilepath` joins onto the workspaces directory when
the default `.ws` extension is in effect: the split base, plus `.ws` exactly
when the split found no extension. -/
def resolvedName (fn : String) : String :=
  (os_path_splitext fn).1 ++
    (if (os_path_splitext fn).2 = "" then ".ws" else (os_path_splitext fn).2)

/-- The final path component of `s` contains a character other than `'.'`
(the scan `_splitext` performs between the last `'/'` and the last dot). -/
def lastComponentHasNonDot (s : String) : Bool :=
  hasNonDotChar s.data (rfind '/' s.data + 1).toNat s.data.length

theorem splitextChars_base_head (p : List Char) (h : (splitextChars p).1 ≠ []) :
    (splitextChars p).1.head? = p.head? := by
  rw [splitextChars] at h ⊢
  by_cases h1 : rfind '/' p < rfind '.' p
  · rw [if_pos h1] at h ⊢
    by_cases h2 : hasNonDotChar p (rfind '/' p + 1).toNat (rfind '.' p).toNat = true
    · rw [if_pos h2] at h ⊢
      exact head?_take_of_ne_nil p _ h
    · rw [if_neg h2]
  · rw [if_neg h1]

theorem os_path_join_append (dir nm : String) (hd : dir.data.getLast? = some '/')
    (hn : nm.data.head? ≠ some '/') : os_path_join dir nm = dir ++ nm := by
  rw [os_path_join, joinChars_of_sep_end dir.data nm.data hd hn]
  rfl

theorem getWorkspaceFilepath_eq (pp : String) (st : Settings) (dir fn : String)
    (hdir : getWorkspacesDir pp st = some dir)
    (hext : st "easy_ws_file_extension" = Option.none) :
    getWorkspaceFilepath pp st fn = some (os_path_join dir (resolvedName fn)) := by
  have hD : defaultExtension st = some ".ws" := by
    rw [defaultExtension, Settings.get, hext]
    rfl
  rw [getWorkspaceFilepath, hdir]
  simp only [Option.bind_eq_bind, Option.some_bind]
  by_cases he : (os_path_splitext fn).2 = ""
  · rw [if_pos he, hD]
    rw [resolvedName, if_pos he]
    rfl
  · rw [if_neg he]
    rw [resolvedName, if_neg he]
    rfl

theorem resolvedName_head (fn : String) (hrel : fn.data.head? ≠ some '/') :
    (resolvedName fn).data.head? ≠ some '/' := by
  have hbase : ∀ x xs, (os_path_splitext fn).1.data = x :: xs → x ≠ '/' := by
    intro x xs hb hx
    subst hx
    have hne : (splitextChars fn.data).1 ≠ [] := by
      intro hc
      rw [show (os_path_splitext fn).1.data = (splitextChars fn.data).1 from rfl, hc] at hb
      cases hb
    have hbh := splitextChars_base_head fn.data hne
    rw [show (splitextChars fn.data).1 = (os_path_splitext fn).1.data from rfl, hb] at hbh
    exact hrel hbh.symm
  rw [resolvedName]
  by_cases he : (os_path_splitext fn).2 = ""
  · rw [if_pos he]
    rw [show ((os_path_splitext fn).1 ++ ".ws").data
      = (os_path_splitext fn).1.data ++ ".ws".data from rfl]
    cases hb : (os_path_splitext fn).1.data with
    | nil => intro hcon; cases hcon
    | cons x xs =>
        intro hcon
        simp only [List.cons_append, List.head?_cons, Option.some_inj] at hcon
        exact hbase x xs hb hcon
  · rw [if_neg he]
    rw [show ((os_path_splitext fn).1 ++ (os_path_splitext fn).2).data
      = (os_path_splitext fn).1.data ++ (os_path_splitext fn).2.data from rfl]
    cases hb : (os_path_splitext fn).1.data with
    | nil =>
        have hne : (splitextChars fn.data).2 ≠ [] := by
          intro hc
          apply he
          rw [show (os_path_splitext fn).2 = String.mk (splitextChars fn.data).2 from rfl, hc]
        have hh := (splitextChars_ext_head fn.data hne).1
        rw [List.nil_append]
        rw [show (os_path_splitext fn).2.data = (splitextChars fn.data).2 from rfl, hh]
        intro hcon
        cases hcon
    | cons x xs =>
        intro hcon
        simp only [List.cons_append, List.head?_cons, Option.some_inj] at hcon
        exact hbase x xs hb hcon

/-- Claim C10 (corrected), counterexample to the claim as stated: with
default settings and packages path `/p`, the filename `a/` resolves to
`.../a/.ws`; stripping the directory and resolving again yields
`.../a/.ws.ws`, a different path — `splitext` treats `.ws` in `a/.ws` as a
dotfile name, not an extension, so `.ws` is appended a second time. -/
theorem getWorkspaceFilepath_not_idem :
    getWorkspaceFilepath "/p" (fun _ => Option.none) "a/"
      = some "/p/EasyWorkspace/workspaces/a/.ws"
    ∧ "/p/EasyWorkspace/workspaces/a/.ws" = "/p/EasyWorkspace/workspaces/" ++ "a/.ws"
    ∧ getWorkspaceFilepath "/p" (fun _ => Option.none) "a/.ws"
      = some "/p/EasyWorkspace/workspaces/a/.ws.ws"
    ∧ ("/p/EasyWorkspace/workspaces/a/.ws.ws" : String)
      ≠ "/p/EasyWorkspace/workspaces/a/.ws" := by
  refine ⟨by decide, by decide, by decide, by decide⟩

/-- Claim C10 (amended): with the default extension setting in effect, for
every filename not beginning with the separator, `getWorkspaceFilepath`
returns the workspaces directory followed by the split base plus `.ws`
exactly when `splitext` finds no extension (a filename with an extension is
kept unchanged); and resolving the produced name stripped of the directory
yields the same path provided the filename's final path component contains a
character other than a dot. -/
theorem getWorkspaceFilepath_spec (pp : String) (st : Settings) (dir fn : String)
    (hdir : getWorkspacesDir pp st = some dir)
    (hext : st "easy_ws_file_extension" = Option.none)
    (hrel : fn.data.head? ≠ some '/') :
    getWorkspaceFilepath pp st fn = some (dir ++ resolvedName fn)
    ∧ (os_path_splitext fn).1 ++ (os_path_splitext fn).2 = fn
    ∧ ((os_path_splitext fn).2 ≠ "" → resolvedName fn = fn)
    ∧ (lastComponentHasNonDot fn = true →
        getWorkspaceFilepath pp st (resolvedName fn) = some (dir ++ resolvedName fn)) := by
  have hdl := getWorkspacesDir_getLast pp st dir hdir
  have hhead := resolvedName_head fn hrel
  have hjoin := os_path_join_append dir (resolvedName fn) hdl hhead
  have hmain : getWorkspaceFilepath pp st fn = some (dir ++ resolvedName fn) := by
    rw [getWorkspaceFilepath_eq pp st dir fn hdir hext, hjoin]
  have hconcat : (os_path_splitext fn).1 ++ (os_path_splitext fn).2 = fn := by
    have hc : String.mk ((splitextChars fn.data).1 ++ (splitextChars fn.data).2)
        = String.mk fn.data := congrArg String.mk (splitextChars_concat fn.data)
    exact hc
  have hkeep : (os_path_splitext fn).2 ≠ "" → resolvedName fn = fn := by
    intro hne
    rw [resolvedName, if_neg hne]
    exact hconcat
  refine ⟨hmain, hconcat, hkeep, ?_⟩
  intro hnd
  by_cases he : (os_path_splitext fn).2 = ""
  · have hec : (splitextChars fn.data).2 = [] := congrArg String.data he
    have hbase : (splitextChars fn.data).1 = fn.data := splitextChars_ext_empty fn.data hec
    have h1 : (os_path_splitext fn).1 = fn := by
      show String.mk (splitextChars fn.data).1 = fn
      rw [hbase]
    have hrn : resolvedName fn = fn ++ ".ws" := by
      rw [resolvedName, if_pos he, h1]
    have hnd' : hasNonDotChar fn.data (rfind '/' fn.data + 1).toNat fn.data.length = true := by
      rw [lastComponentHasNonDot] at hnd
      exact hnd
    have hsplit2 : splitextChars ((fn ++ ".ws").data) = (fn.data, ".ws".data) := by
      rw [show (fn ++ ".ws").data = fn.data ++ ".ws".data from rfl]
      exact splitextChars_append_ext fn.data ".ws".data (by decide) (by decide) hnd'
    have h2split : os_path_splitext (fn ++ ".ws") = (fn, ".ws") := by
      rw [os_path_splitext, hsplit2]
    have hrn2 : resolvedName (fn ++ ".ws") = fn ++ ".ws" := by
      rw [resolvedName, h2split]
      show fn ++ (if (".ws" : String) = "" then ".ws" else ".ws") = fn ++ ".ws"
      rw [if_neg (by decide : ¬ (".ws" : String) = "")]
    have hhead2 : (fn ++ ".ws").data.head? ≠ some '/' := by
      rw [← hrn]
      exact hhead
    rw [hrn]
    rw [getWorkspaceFilepath_eq pp st dir (fn ++ ".ws") hdir hext, hrn2,
      os_path_join_append dir (fn ++ ".ws") hdl hhead2]
  · rw [hkeep he]
    rw [hkeep he] at hmain
    exact hmain

/-- Witness for `getWorkspaceFilepath_spec` at default settings and the
extensionless filename `doc`. -/
theorem getWorkspaceFilepath_spec_witness :
    getWorkspaceFilepath "/p" (fun _ => Option.none) "doc"
      = some ("/p/EasyWorkspace/workspaces/" ++ resolvedName "doc")
    ∧ (os_path_splitext "doc").1 ++ (os_path_splitext "doc").2 = "doc"
    ∧ ((os_path_splitext "doc").2 ≠ "" → resolvedName "doc" = "doc")
    ∧ (lastComponentHasNonDot "doc" = true →
        getWorkspaceFilepath "/p" (fun _ => Option.none) (resolvedName "doc")
          = some ("/p/EasyWorkspace/workspaces/" ++ resolvedName "doc")) :=
  getWorkspaceFilepath_spec "/p" (fun _ => Option.none) "/p/EasyWorkspace/workspaces/" "doc"
    (by decide) rfl (by decide)

/-! ### The command layer's shared state -/

/-- The process-wide state every command class shares: the
`_openWorkspaceFiles` dict from window ids to workspace file paths, and the
`_reopenWorkspace` pointer. -/
structure SharedState where
  openWorkspaceFiles : List (Nat × String)
  reopenWorkspace : String
deriving DecidableEq

/-- `EasyWorkspaceCommand.__garbageCollectOpenWorkspaceFiles`, run by every
command's `run`: the source deletes each key that is not a current window
id, which keeps exactly the entries whose key is a current window id. -/
def garbageCollectOpenWorkspaceFiles (openIds : List Nat) (st : SharedState) : SharedState :=
  { st with openWorkspaceFiles :=
      st.openWorkspaceFiles.filter fun kv => decide (kv.1 ∈ openIds) }

/-- Python dict assignment `m[k] = v`: update in place when the key exists,
append otherwise. -/
def dictSet (m : List (Nat × String)) (k : Nat) (v : String) : List (Nat × String) :=
  match m with
  | [] => [(k, v)]
  | (k', v') :: rest => if k' = k then (k, v) :: rest else (k', v') :: dictSet rest k v

/-- Python `m.get(k)`: `None` when the key is absent. -/
def dictGet? (m : List (Nat × String)) (k : Nat) : Option String :=
  List.lookup k m

/-- The outcome of `sublime.yes_no_cancel_dialog`. -/
inductive DialogResult where
  | yes
  | no
  | cancel
deriving DecidableEq

/-- The `doSaveDialogResult` computation in `SaveEasyWorkspaceCommand.run`:
`DIALOG_YES` unless one of the two prompts fires, in which case the user's
answer decides. -/
def saveDialogResult (promptOverwrite fileExists promptSave : Bool)
    (answer : DialogResult) : DialogResult :=
  if promptOverwrite && fileExists then answer
  else if promptSave then answer
  else DialogResult.yes

/-- What `SaveEasyWorkspaceCommand.run` left behind: the shared state, the
file system, the document written (if any) and whether the command delegated
to save-as. -/
structure SaveRunResult where
  shared : SharedState
  fs : FileSystem
  written : Option (String × JVal)
  delegatedToSaveAs : Bool
deriving DecidableEq

/-- `SaveEasyWorkspaceCommand.run`: garbage-collects the shared dict, then
either delegates to save-as (new workspace, no filename), or captures the
window into a fresh `EasyWorkspace()`, resolves the target path, consults
the prompts, and on a yes saves the file and records it for the window.
`none` models an uncaught exception. -/
def saveEasyWorkspaceRun (pp : String) (settings : Settings) (openIds : List Nat)
    (wid : Nat) (w : Window) (filenameArg : Option String)
    (promptOverwrite promptSave : Bool) (dialogAnswer : DialogResult)
    (st0 : SharedState) (fs : FileSystem) : Option SaveRunResult :=
  let st := garbageCollectOpenWorkspaceFiles openIds st0
  let isNewWorkspace := (dictGet? st.openWorkspaceFiles wid).isNone
  let noFileProvided := filenameArg.isNone
  if isNewWorkspace && noFileProvided then
    some ⟨st, fs, Option.none, true⟩
  else do
    let ws ← EasyWorkspace.buildFromWindow EasyWorkspace.init w
    let fname ← filenameArg.orElse fun _ => dictGet? st.openWorkspaceFiles wid
    let fullFilePath ← getWorkspaceFilepath pp settings fname
    let answer := saveDialogResult promptOverwrite (fs.read fullFilePath).isSome
      promptSave dialogAnswer
    if answer ≠ DialogResult.yes then
      some ⟨st, fs, Option.none, false⟩
    else
      some ⟨{ st with openWorkspaceFiles := dictSet st.openWorkspaceFiles wid fullFilePath },
        (ws.saveToFile fs fullFilePath).1,
        some (fullFilePath, encode_value (.dict (wsVars ws))), false⟩

/-- `len(window.views())`: the views of a window across all groups. -/
def Window.viewsCount (w : Window) : Nat :=
  (w.groups.map fun g => g.views.length).sum

/-- `OpenEasyWorkspaceCommand.windowEmpty`:
`len(views) == len(folders) == 0`. -/
def windowEmpty (w : Window) : Bool :=
  w.viewsCount == w.folders.length && w.folders.length == 0

/-- What `OpenEasyWorkspaceCommand.run` left behind: the shared state,
whether it only prompted for a filename, and on an actual open the target
window id, resolved path, loaded workspace and apply effects. -/
structure OpenRunResult where
  shared : SharedState
  prompted : Bool
  opened : Option (Nat × String × EasyWorkspace × ApplyEffects)
deriving DecidableEq

/-- `OpenEasyWorkspaceCommand.run`: garbage-collects the shared dict; with
no filename it only prompts; otherwise it loads the resolved file into a
fresh `EasyWorkspace()`, applies it to the current window when empty or to a
newly created window otherwise, and records the path for that window.
`none` models an uncaught exception. -/
def openEasyWorkspaceRun (pp : String) (settings : Settings) (openIds : List Nat)
    (wid : Nat) (w : Window) (newWindowId : Nat) (filenameArg : Option String)
    (st0 : SharedState) (fs : FileSystem) : Option OpenRunResult :=
  let st := garbageCollectOpenWorkspaceFiles openIds st0
  match filenameArg with
  | Option.none => some ⟨st, true, Option.none⟩
  | some filename =>
      let targetWid := if windowEmpty w then wid else newWindowId
      do
        let fullFilePath ← getWorkspaceFilepath pp settings filename
        let ws ← EasyWorkspace.loadFromFile EasyWorkspace.init fs fullFilePath
        let eff ← ws.applyToWindow
        let newFiles := dictSet st.openWorkspaceFiles targetWid fullFilePath
        some ⟨{ st with openWorkspaceFiles := newFiles }, false,
          some (targetWid, fullFilePath, ws, eff)⟩

/-- The window-closing commands `AutoSaveEasyWorkspace` reacts to. -/
def commandsThatCloseWorkspace : List String :=
  ["close_folder_list", "close_project", "prompt_open_project_or_workspace",
   "prompt_switch_project_or_workspace", "prompt_select_workspace",
   "close_all", "close_window"]

/-- What the autosave listener did: the shared state (possibly with a new
`_reopenWorkspace`) and whether it ran `save_easy_workspace`. -/
structure AutoSaveResult where
  shared : SharedState
  saveRequested : Bool
deriving DecidableEq

/-- `AutoSaveEasyWorkspace.on_window_command`: bails out unless the window
has an open workspace file and the global autosave setting is truthy; for a
window-closing command it records the reopen pointer, and additionally runs
the save command when the per-command setting is truthy. -/
def on_window_command (settings : Settings) (wid : Nat) (commandName : String)
    (st : SharedState) : AutoSaveResult :=
  let usingEasyWs := (dictGet? st.openWorkspaceFiles wid).isSome
  let saveEnabled := (settings.get "easy_ws_save_on" (.bool false)).truthy
  if !(usingEasyWs && saveEnabled) then ⟨st, false⟩
  else if commandName ∈ commandsThatCloseWorkspace then
    let st' := { st with reopenWorkspace := (dictGet? st.openWorkspaceFiles wid).getD "" }
    if (settings.get ("easy_ws_save_on_" ++ commandName) (.bool false)).truthy then
      ⟨st', true⟩
    else ⟨st', false⟩
  else ⟨st, false⟩

/-- Claim C3 (confirmed): the autosave hook requests a save exactly when the
window has an open workspace file, the global `easy_ws_save_on` setting is
truthy, the command is one of `commandsThatCloseWorkspace`, and the
per-command `easy_ws_save_on_<command>` setting is truthy. -/
theorem autosave_saves_exactly_when (settings : Settings) (wid : Nat) (cmd : String)
    (st : SharedState) :
    (on_window_command settings wid cmd st).saveRequested =
      ((dictGet? st.openWorkspaceFiles wid).isSome
        && (settings.get "easy_ws_save_on" (.bool false)).truthy
        && decide (cmd ∈ commandsThatCloseWorkspace)
        && (settings.get ("easy_ws_save_on_" ++ cmd) (.bool false)).truthy) := by
  cases hu : (dictGet? st.openWorkspaceFiles wid).isSome <;>
    cases hs : (settings.get "easy_ws_save_on" (.bool false)).truthy <;>
    by_cases hm : cmd ∈ commandsThatCloseWorkspace <;>
    cases hp : (settings.get ("easy_ws_save_on_" ++ cmd) (.bool false)).truthy <;>
    simp [on_window_command, hu, hs, hm, hp]

/-- Exhaustive description of a completed save command: either nothing was
written and the shared dict is just the garbage-collected one, or the file
written holds the encoding of a workspace freshly captured from the window,
and the dict gains that path under the command's window id. -/
theorem saveEasyWorkspaceRun_cases (pp : String) (settings : Settings) (openIds : List Nat)
    (wid : Nat) (w : Window) (fa : Option String) (po ps : Bool) (da : DialogResult)
    (st0 : SharedState) (fs : FileSystem) (res : SaveRunResult)
    (h : saveEasyWorkspaceRun pp settings openIds wid w fa po ps da st0 fs = some res) :
    (res.shared = garbageCollectOpenWorkspaceFiles openIds st0 ∧ res.written = Option.none)
    ∨ (∃ ws path,
        EasyWorkspace.buildFromWindow EasyWorkspace.init w = some ws
        ∧ res.shared.openWorkspaceFiles =
            dictSet (garbageCollectOpenWorkspaceFiles openIds st0).openWorkspaceFiles wid path
        ∧ res.written = some (path, encode_value (.dict (wsVars ws)))) := by
  rw [saveEasyWorkspaceRun] at h
  by_cases hb : ((dictGet?
      (garbageCollectOpenWorkspaceFiles openIds st0).openWorkspaceFiles wid).isNone
      && fa.isNone) = true
  · rw [if_pos hb] at h
    cases h
    exact Or.inl ⟨rfl, rfl⟩
  · rw [if_neg hb] at h
    simp only [Option.bind_eq_bind, Option.bind_eq_some] at h
    obtain ⟨ws, hws, fname, hfname, path, hpath, h⟩ := h
    by_cases ha : saveDialogResult po ((fs.read path).isSome) ps da ≠ DialogResult.yes
    · rw [if_pos ha] at h
      cases h
      exact Or.inl ⟨rfl, rfl⟩
    · rw [if_neg ha] at h
      cases h
      exact Or.inr ⟨ws, path, hws, rfl, rfl⟩

/-- Exhaustive description of a completed open command: either nothing was
opened and the shared dict is just the garbage-collected one, or a workspace
freshly loaded from the resolved file was applied to the target window and
the dict gains the path under the target window's id. -/
theorem openEasyWorkspaceRun_cases (pp : String) (settings : Settings) (openIds : List Nat)
    (wid : Nat) (w : Window) (nw : Nat) (fa : Option String)
    (st0 : SharedState) (fs : FileSystem) (res : OpenRunResult)
    (h : openEasyWorkspaceRun pp settings openIds wid w nw fa st0 fs = some res) :
    (res.shared = garbageCollectOpenWorkspaceFiles openIds st0 ∧ res.opened = Option.none)
    ∨ (∃ path ws eff,
        EasyWorkspace.loadFromFile EasyWorkspace.init fs path = some ws
        ∧ EasyWorkspace.applyToWindow ws = some eff
        ∧ res.shared.openWorkspaceFiles =
            dictSet (garbageCollectOpenWorkspaceFiles openIds st0).openWorkspaceFiles
              (if windowEmpty w then wid else nw) path
        ∧ res.opened = some (if windowEmpty w then wid else nw, path, ws, eff)) := by
  rw [openEasyWorkspaceRun.eq_def] at h
  cases fa with
  | none =>
      cases h
      exact Or.inl ⟨rfl, rfl⟩
  | some filename =>
      simp only [Option.bind_eq_bind, Option.bind_eq_some] at h
      obtain ⟨path, hpath, ws, hws, eff, heff, h⟩ := h
      cases h
      exact Or.inr ⟨path, ws, eff, hws, heff, rfl, rfl⟩

theorem keys_gc (openIds : List Nat) (st : SharedState) (k : Nat)
    (hk : k ∈ (garbageCollectOpenWorkspaceFiles openIds st).openWorkspaceFiles.map Prod.fst) :
    k ∈ openIds := by
  simp only [garbageCollectOpenWorkspaceFiles, List.mem_map] at hk
  obtain ⟨kv, hkv, hfst⟩ := hk
  subst hfst
  exact of_decide_eq_true (List.mem_filter.mp hkv).2

theorem keys_dictSet (m : List (Nat × String)) (k0 : Nat) (v : String) (k : Nat)
    (hk : k ∈ (dictSet m k0 v).map Prod.fst) : k = k0 ∨ k ∈ m.map Prod.fst := by
  induction m with
  | nil =>
      simp [dictSet] at hk
      exact Or.inl hk
  | cons kv rest ih =>
      rw [dictSet] at hk
      by_cases hke : kv.1 = k0
      · rw [if_pos hke] at hk
        simp only [List.map_cons, List.mem_cons] at hk
        rcases hk with rfl | hk
        · exact Or.inl rfl
        · exact Or.inr (List.mem_cons_of_mem _ hk)
      · rw [if_neg hke] at hk
        simp only [List.map_cons, List.mem_cons] at hk
        rcases hk with rfl | hk
        · exact Or.inr (List.mem_cons_self _ _)
        · rcases ih hk with h0 | h1
          · exact Or.inl h0
          · exact Or.inr (List.mem_cons_of_mem _ h1)

/-- Claim C5 (confirmed): after a command's `run`, the shared
`_openWorkspaceFiles` dict holds entries only for currently open windows:
garbage collection keeps only open-window keys, and the save and open
commands add at most one entry, keyed by an open window (the command's own
window, or the open target window of an open). -/
theorem openWorkspaceFiles_only_open_windows :
    (∀ (openIds : List Nat) (st : SharedState) (k : Nat),
        k ∈ (garbageCollectOpenWorkspaceFiles openIds st).openWorkspaceFiles.map Prod.fst →
        k ∈ openIds)
    ∧ (∀ (pp : String) (settings : Settings) (openIds : List Nat) (wid : Nat) (w : Window)
        (fa : Option String) (po ps : Bool) (da : DialogResult) (st0 : SharedState)
        (fs : FileSystem) (res : SaveRunResult),
        saveEasyWorkspaceRun pp settings openIds wid w fa po ps da st0 fs = some res →
        wid ∈ openIds →
        ∀ k, k ∈ res.shared.openWorkspaceFiles.map Prod.fst → k ∈ openIds)
    ∧ (∀ (pp : String) (settings : Settings) (openIds : List Nat) (wid : Nat) (w : Window)
        (nw : Nat) (fa : Option String) (st0 : SharedState) (fs : FileSystem)
        (res : OpenRunResult),
        openEasyWorkspaceRun pp settings openIds wid w nw fa st0 fs = some res →
        wid ∈ openIds → nw ∈ openIds →
        ∀ k, k ∈ res.shared.openWorkspaceFiles.map Prod.fst → k ∈ openIds) := by
  refine ⟨keys_gc, ?_, ?_⟩
  · intro pp settings openIds wid w fa po ps da st0 fs res h hw k hk
    rcases saveEasyWorkspaceRun_cases pp settings openIds wid w fa po ps da st0 fs res h with
      ⟨heq, _⟩ | ⟨ws, path, _, heq, _⟩
    · rw [heq] at hk
      exact keys_gc openIds st0 k hk
    · rw [heq] at hk
      rcases keys_dictSet _ _ _ _ hk with rfl | hk'
      · exact hw
      · exact keys_gc openIds st0 k hk'
  · intro pp settings openIds wid w nw fa st0 fs res h hw hn k hk
    rcases openEasyWorkspaceRun_cases pp settings openIds wid w nw fa st0 fs res h with
      ⟨heq, _⟩ | ⟨path, ws, eff, _, _, heq, _⟩
    · rw [heq] at hk
      exact keys_gc openIds st0 k hk
    · rw [heq] at hk
      rcases keys_dictSet _ _ _ _ hk with rfl | hk'
      · by_cases hwe : windowEmpty w = true
        · rw [if_pos hwe]
          exact hw
        · rw [if_neg hwe]
          exact hn
      · exact keys_gc openIds st0 k hk'

/-- A concrete completed save run: window id 1 open, filename `n`, default
settings, no prompts, a stale entry for the closed window 2 in the dict. -/
def saveResW : SaveRunResult :=
  (saveEasyWorkspaceRun "/p" (fun _ => Option.none) [1] 1 wMixed (some "n") false false
    DialogResult.yes ⟨[(2, "old")], ""⟩ []).getD ⟨⟨[], ""⟩, [], Option.none, false⟩

/-- A concrete completed open run: non-empty window 1, new window 9,
filename `n`, empty file system, stale entry for closed window 2. -/
def openResW : OpenRunResult :=
  (openEasyWorkspaceRun "/p" (fun _ => Option.none) [1, 9] 1 wMixed 9 (some "n")
    ⟨[(2, "old")], ""⟩ []).getD ⟨⟨[], ""⟩, false, Option.none⟩

/-- Witness for `openWorkspaceFiles_only_open_windows` on the concrete
garbage collection, save run and open run. -/
theorem openWorkspaceFiles_only_open_windows_witness :
    ((1 : Nat) ∈ (garbageCollectOpenWorkspaceFiles [1]
        ⟨[(1, "a"), (2, "b")], ""⟩).openWorkspaceFiles.map Prod.fst
      ∧ (1 : Nat) ∈ ([1] : List Nat))
    ∧ (saveEasyWorkspaceRun "/p" (fun _ => Option.none) [1] 1 wMixed (some "n") false false
        DialogResult.yes ⟨[(2, "old")], ""⟩ [] = some saveResW
      ∧ (1 : Nat) ∈ saveResW.shared.openWorkspaceFiles.map Prod.fst
      ∧ (1 : Nat) ∈ ([1] : List Nat))
    ∧ (openEasyWorkspaceRun "/p" (fun _ => Option.none) [1, 9] 1 wMixed 9 (some "n")
        ⟨[(2, "old")], ""⟩ [] = some openResW
      ∧ (9 : Nat) ∈ openResW.shared.openWorkspaceFiles.map Prod.fst
      ∧ (9 : Nat) ∈ ([1, 9] : List Nat)) :=
  ⟨⟨by decide, openWorkspaceFiles_only_open_windows.1 [1] ⟨[(1, "a"), (2, "b")], ""⟩ 1
      (by decide)⟩,
   ⟨by decide, by decide,
    openWorkspaceFiles_only_open_windows.2.1 "/p" (fun _ => Option.none) [1] 1 wMixed
      (some "n") false false DialogResult.yes ⟨[(2, "old")], ""⟩ [] saveResW (by decide)
      (by decide) 1 (by decide)⟩,
   ⟨by decide, by decide,
    openWorkspaceFiles_only_open_windows.2.2 "/p" (fun _ => Option.none) [1, 9] 1 wMixed 9
      (some "n") ⟨[(2, "old")], ""⟩ [] openResW (by decide) (by decide) (by decide) 9
      (by decide)⟩⟩

/-- Claim C7 (confirmed): each save run writes (when it writes at all) the
encoding of a workspace built by `buildFromWindow` on a freshly constructed
`EasyWorkspace()` — independent of any previously existing workspace value —
and each open run applies a workspace produced by `loadFromFile` on a fresh
`EasyWorkspace()`; the only inputs carried between runs are the file system,
the shared window-to-filepath dict and the reopen pointer. -/
theorem fresh_workspace_per_operation :
    (∀ (pp : String) (settings : Settings) (openIds : List Nat) (wid : Nat) (w : Window)
        (fa : Option String) (po ps : Bool) (da : DialogResult) (st0 : SharedState)
        (fs : FileSystem) (res : SaveRunResult) (path : String) (doc : JVal),
        saveEasyWorkspaceRun pp settings openIds wid w fa po ps da st0 fs = some res →
        res.written = some (path, doc) →
        ∃ ws, EasyWorkspace.buildFromWindow EasyWorkspace.init w = some ws
          ∧ doc = encode_value (.dict (wsVars ws)))
    ∧ (∀ (pp : String) (settings : Settings) (openIds : List Nat) (wid : Nat) (w : Window)
        (nw : Nat) (fa : Option String) (st0 : SharedState) (fs : FileSystem)
        (res : OpenRunResult) (t : Nat) (path : String) (ws : EasyWorkspace)
        (eff : ApplyEffects),
        openEasyWorkspaceRun pp settings openIds wid w nw fa st0 fs = some res →
        res.opened = some (t, path, ws, eff) →
        EasyWorkspace.loadFromFile EasyWorkspace.init fs path = some ws
          ∧ EasyWorkspace.applyToWindow ws = some eff) := by
  constructor
  · intro pp settings openIds wid w fa po ps da st0 fs res path doc h hwrit
    rcases saveEasyWorkspaceRun_cases pp settings openIds wid w fa po ps da st0 fs res h with
      ⟨_, hnone⟩ | ⟨ws, path', hws, _, hw⟩
    · rw [hnone] at hwrit
      cases hwrit
    · rw [hw] at hwrit
      cases hwrit
      exact ⟨ws, hws, rfl⟩
  · intro pp settings openIds wid w nw fa st0 fs res t path ws eff h hopen
    rcases openEasyWorkspaceRun_cases pp settings openIds wid w nw fa st0 fs res h with
      ⟨_, hnone⟩ | ⟨path', ws', eff', hload, happly, _, hop⟩
    · rw [hnone] at hopen
      cases hopen
    · rw [hop] at hopen
      cases hopen
      exact ⟨hload, happly⟩

/-- The workspace the concrete open run `openResW` loads. -/
def wsLoadedW : EasyWorkspace :=
  { EasyWorkspace.init with filename := "/p/EasyWorkspace/workspaces/n.ws" }

/-- Witness for `fresh_workspace_per_operation` on the concrete save and
open runs. -/
theorem fresh_workspace_per_operation_witness :
    (saveResW.written = some ("/p/EasyWorkspace/workspaces/n.ws",
        encode_value (.dict (wsVars wsMixed)))
      ∧ ∃ ws, EasyWorkspace.buildFromWindow EasyWorkspace.init wMixed = some ws
          ∧ encode_value (.dict (wsVars wsMixed)) = encode_value (.dict (wsVars ws)))
    ∧ (openResW.opened = some (9, "/p/EasyWorkspace/workspaces/n.ws", wsLoadedW,
        (⟨[], []⟩ : ApplyEffects))
      ∧ EasyWorkspace.loadFromFile EasyWorkspace.init [] "/p/EasyWorkspace/workspaces/n.ws"
          = some wsLoadedW
      ∧ EasyWorkspace.applyToWindow wsLoadedW = some ⟨[], []⟩) :=
  ⟨⟨by decide,
    fresh_workspace_per_operation.1 "/p" (fun _ => Option.none) [1] 1 wMixed (some "n")
      false false DialogResult.yes ⟨[(2, "old")], ""⟩ [] saveResW
      "/p/EasyWorkspace/workspaces/n.ws" (encode_value (.dict (wsVars wsMixed)))
      (by decide) (by decide)⟩,
   ⟨by decide,
    fresh_workspace_per_operation.2 "/p" (fun _ => Option.none) [1, 9] 1 wMixed 9
      (some "n") ⟨[(2, "old")], ""⟩ [] openResW 9 "/p/EasyWorkspace/workspaces/n.ws"
      wsLoadedW ⟨[], []⟩ (by decide) (by decide)⟩⟩

end EasyWS
